import Mathlib

/-!
Verification development for the ai-news-backend service (`src/unnamed/part_000`).

The service aggregates RSS feeds into a text context, asks a generative model
for a JSON array of briefing items, stores the result in an in-memory cache and
(best effort) in a Postgres table, and serves the latest briefing through a
read endpoint that falls back to the cache.  External collaborators (the RSS
parser, the generative-model client, the SQL engine, `JSON.parse`) are modelled
as oracle parameters or as faithful executable models of the standard behaviour
the code relies on.
-/

namespace AiNews

/-- JSON values, as produced by the `JSON.parse` builtin the service calls.
Numbers are modelled as integers (the fragment the claims exercise). -/
inductive Json where
  | null : Json
  | bool : Bool → Json
  | num : Int → Json
  | str : String → Json
  | arr : List Json → Json
  | obj : List (String × Json) → Json
deriving Repr

/-- JavaScript whitespace (the ASCII range of the regex class `\s` and of
`String.prototype.trim`), which is what the code feeds to its regex. -/
def isWsChar (c : Char) : Bool :=
  c = ' ' || c = '\t' || c = '\n' || c = '\r' || c = '\x0b' || c = '\x0c'

/-- `String.prototype.trim`: drop whitespace from both ends. -/
def trimList (cs : List Char) : List Char :=
  ((cs.dropWhile isWsChar).reverse.dropWhile isWsChar).reverse

/-- Does the character list begin with a fence marker (three backticks)? -/
def startsWithFence (l : List Char) : Bool :=
  decide (l.take 3 = ['`', '`', '`'])

/-- Helper for the lazy group of the fence regex: scan `rest` for the first
position from which optional whitespace followed by a closing fence matches;
the characters passed over (in `acc`, reversed) form the captured group. -/
def findClose (acc rest : List Char) : Option (List Char) :=
  if startsWithFence (rest.dropWhile isWsChar) then some acc.reverse
  else
    match rest with
    | [] => none
    | x :: xs => findClose (x :: acc) xs

/-- After the opening fence and optional tag: `\s*([\s\S]*?)\s*` followed by a
closing fence.  The greedy `\s*` skips the maximal whitespace run (a fence
starts with a non-whitespace character, so no shorter run can succeed). -/
def restMatch (q : List Char) : Option (List Char) :=
  findClose [] (q.dropWhile isWsChar)

/-- Attempt the regex at the current position: an opening fence, then the
optional tag `json` (tried first, with backtracking to the untagged branch,
as the regex engine does), then the whitespace-trimmed lazy group. -/
def matchAt (cs : List Char) : Option (List Char) :=
  if startsWithFence cs then
    let afterOpen := cs.drop 3
    let tagged : Option (List Char) :=
      if afterOpen.take 4 = ['j', 's', 'o', 'n'] then restMatch (afterOpen.drop 4)
      else none
    match tagged with
    | some g => some g
    | none => restMatch afterOpen
  else none

/-- Leftmost match of the source regex over the whole string. -/
def firstMatch : List Char → Option (List Char)
  | [] => none
  | c :: cs =>
    match matchAt (c :: cs) with
    | some g => some g
    | none => firstMatch cs

/-- `cleanJson` from the source: empty (falsy) input yields the literal
`"[]"`; otherwise trim, and if the fenced-block regex matches anywhere,
replace the text by the captured group. -/
def cleanJson (text : String) : String :=
  if text = "" then "[]"
  else
    let cleaned := trimList text.toList
    match firstMatch cleaned with
    | some g => String.mk g
    | none => String.mk cleaned

/-- JSON grammar whitespace, as accepted by `JSON.parse`. -/
def isJsonWs (c : Char) : Bool :=
  c = ' ' || c = '\t' || c = '\n' || c = '\r'

/-- Skip JSON whitespace. -/
def skipWs (cs : List Char) : List Char := cs.dropWhile isJsonWs

/-- String-body scanner for the `JSON.parse` model: everything up to the
closing quote, with the usual single-character escapes. -/
def scanStr : List Char → List Char → Option (String × List Char)
  | acc, '"' :: r => some (String.mk acc.reverse, r)
  | acc, '\\' :: e :: r =>
    (if e = 'n' then some '\n'
     else if e = 't' then some '\t'
     else if e = 'r' then some '\r'
     else if e = '"' then some '"'
     else if e = '\\' then some '\\'
     else if e = '/' then some '/'
     else if e = 'b' then some '\x08'
     else if e = 'f' then some '\x0c'
     else none).bind fun c => scanStr (c :: acc) r
  | _, '\\' :: [] => none
  | acc, c :: r => scanStr (c :: acc) r
  | _, [] => none

/-- Digits of a decimal literal folded to a natural number. -/
def digitsToNat (ds : List Char) : Nat :=
  ds.foldl (fun n d => 10 * n + (d.toNat - '0'.toNat)) 0

/-- Integer literal (optional minus, then digits); fractional or exponent
syntax is outside the fragment the service exercises and fails the parse. -/
def scanNum (cs : List Char) : Option (Int × List Char) :=
  match cs with
  | '-' :: r =>
    let ds := r.takeWhile Char.isDigit
    if ds = [] then none else some (-(digitsToNat ds : Int), r.drop ds.length)
  | _ =>
    let ds := cs.takeWhile Char.isDigit
    if ds = [] then none else some ((digitsToNat ds : Int), cs.drop ds.length)

mutual

/-- Fuel-bounded model of the `JSON.parse` builtin: one JSON value plus the
unconsumed remainder. -/
def parseJ : Nat → List Char → Option (Json × List Char)
  | 0, _ => none
  | Nat.succ f, cs =>
    match skipWs cs with
    | '"' :: more => (scanStr [] more).map fun p => (.str p.1, p.2)
    | '[' :: more => (arrElems f more).map fun p => (.arr p.1, p.2)
    | '\x7b' :: more => (objFields f more).map fun p => (.obj p.1, p.2)
    | 't' :: 'r' :: 'u' :: 'e' :: more => some (.bool true, more)
    | 'f' :: 'a' :: 'l' :: 's' :: 'e' :: more => some (.bool false, more)
    | 'n' :: 'u' :: 'l' :: 'l' :: more => some (.null, more)
    | other => (scanNum other).map fun p => (.num p.1, p.2)

/-- Elements of an array, called just after the opening bracket. -/
def arrElems : Nat → List Char → Option (List Json × List Char)
  | 0, _ => none
  | Nat.succ f, cs =>
    match skipWs cs with
    | ']' :: r => some ([], r)
    | rest =>
      (parseJ f rest).bind fun p => (arrElemsRest f p.2).map fun q => (p.1 :: q.1, q.2)

/-- After one array element: a comma and a further element, or the close. -/
def arrElemsRest : Nat → List Char → Option (List Json × List Char)
  | 0, _ => none
  | Nat.succ f, cs =>
    match skipWs cs with
    | ']' :: r => some ([], r)
    | ',' :: r =>
      (parseJ f r).bind fun p => (arrElemsRest f p.2).map fun q => (p.1 :: q.1, q.2)
    | _ => none

/-- Members of an object, called just after the opening brace. -/
def objFields : Nat → List Char → Option (List (String × Json) × List Char)
  | 0, _ => none
  | Nat.succ f, cs =>
    match skipWs cs with
    | '\x7d' :: r => some ([], r)
    | '"' :: r =>
      (scanStr [] r).bind fun k =>
        match skipWs k.2 with
        | ':' :: r2 =>
          (parseJ f r2).bind fun v =>
            (objFieldsRest f v.2).map fun q => ((k.1, v.1) :: q.1, q.2)
        | _ => none
    | _ => none

/-- After one object member: a comma and a further member, or the close. -/
def objFieldsRest : Nat → List Char → Option (List (String × Json) × List Char)
  | 0, _ => none
  | Nat.succ f, cs =>
    match skipWs cs with
    | '\x7d' :: r => some ([], r)
    | ',' :: r =>
      match skipWs r with
      | '"' :: r1 =>
        (scanStr [] r1).bind fun k =>
          match skipWs k.2 with
          | ':' :: r2 =>
            (parseJ f r2).bind fun v =>
              (objFieldsRest f v.2).map fun q => ((k.1, v.1) :: q.1, q.2)
          | _ => none
      | _ => none
    | _ => none

end

/-- The `JSON.parse` builtin: parse one value, demand nothing but whitespace
after it.  The fuel is ample for any input of the given length. -/
def parseJson (s : String) : Option Json :=
  match parseJ (2 * s.length + 8) s.toList with
  | some (v, r) => if skipWs r = [] then some v else none
  | none => none

/-- Parse-and-validate step of `runJob` (source lines 214-215):
`JSON.parse(cleanJson(rawText))`, then reject non-arrays.  A parse failure of
the external builtin surfaces as a thrown `SyntaxError`. -/
def parseStage (rawText : String) : Except String (List Json) :=
  match parseJson (cleanJson rawText) with
  | none => .error "SyntaxError"
  | some (.arr items) => .ok items
  | some _ => .error "Invalid JSON Array"

/-- A feed source from the static registry. -/
structure Source where
  name : String
  url : String
deriving DecidableEq

/-- One item as delivered by the feed-parsing client.  `pubDate` is the
published timestamp the feed carries; the code never reads it. -/
structure FeedItem where
  title : String
  link : String
  contentSnippet : Option String
  content : Option String
  pubDate : Option String
deriving DecidableEq

/-- A parsed feed. -/
structure Feed where
  items : List FeedItem
deriving DecidableEq

/-- `item.contentSnippet || item.content || ""` with JavaScript falsiness
(absent or empty strings fall through). -/
def snippetOf (i : FeedItem) : String :=
  let c := i.content.getD ""
  match i.contentSnippet with
  | some s => if s = "" then c else s
  | none => c

/-- One rendered item block of the context (source line 171). -/
def renderItem (i : FeedItem) : String :=
  "Title: " ++ i.title ++ "\nLink: " ++ i.link ++ "\nSnippet: "
    ++ (snippetOf i).take 200 ++ "...\n\n"

/-- The context block of one successfully fetched source: a header and the
first five items (`feed.items.slice(0, 5)`), rendered in feed order. -/
def sourceBlock (s : Source) (f : Feed) : String :=
  "--- SOURCE: " ++ s.name ++ " ---\n" ++ String.join ((f.items.take 5).map renderItem)

/-- The items of one per-source fetch outcome that the loop body renders:
none on a fetch error, the first five in feed order on success. -/
def sourceItems (r : Except String Feed) : List FeedItem :=
  match r with
  | .error _ => []
  | .ok f => f.items.take 5

/-- The context accumulation of `fetchFeeds` (source lines 160-180), over the
per-source fetch outcomes (the network is an oracle input). -/
def fetchFeedsContext (fetches : List (Source × Except String Feed)) : String :=
  fetches.foldl
    (fun ctx sr =>
      match sr.2 with
      | .error _ => ctx
      | .ok f => ctx ++ sourceBlock sr.1 f)
    "RAW FEED DATA:\n"

/-- The items that appear in the assembled context, in the order the loop
renders them. -/
def contextItems (fetches : List (Source × Except String Feed)) : List FeedItem :=
  fetches.foldl (fun acc sr => acc ++ sourceItems sr.2) []

/-- The per-source log message of the fetch loop: `Fetched name (n)` on
success, `Skipped name: msg` on a fetch error. -/
def fetchLog (sr : Source × Except String Feed) : String :=
  match sr.2 with
  | .ok f => "Fetched " ++ sr.1.name ++ " (" ++ toString f.items.length ++ ")"
  | .error msg => "Skipped " ++ sr.1.name ++ ": " ++ msg

/-- The log lines the fetch loop emits, one per source. -/
def fetchFeedsLogs (fetches : List (Source × Except String Feed)) : List String :=
  fetches.map fetchLog

/-- One tracked job run (`jobHistory` entries).  `id` and `started` come from
the wall clock, modelled as a `Nat` parameter. -/
structure JobRun where
  id : Nat
  started : Nat
  logs : List String
  finished : Bool
  success : Option Bool
  error : Option String
deriving DecidableEq

/-- The timestamp-prefixed log entry `logJob` builds; the wall-clock time
string is a parameter. -/
def mkEntry (time msg : String) : String := "[" ++ time ++ "] " ++ msg

/-- `logJob` (source lines 52-61): append to the front run if it is still
unfinished, otherwise start a new run; then evict beyond five entries. -/
def logJob (now : Nat) (time msg : String) (hist : List JobRun) : List JobRun :=
  let entry := mkEntry time msg
  let hist1 :=
    match hist with
    | [] => [⟨now, now, [entry], false, none, none⟩]
    | r :: rs =>
      if r.finished then ⟨now, now, [entry], false, none, none⟩ :: r :: rs
      else { r with logs := r.logs ++ [entry] } :: rs
  if hist1.length > 5 then hist1.dropLast else hist1

/-- `finishJob` (source lines 63-70): seal the front run if unfinished;
a second call on a sealed run is a no-op. -/
def finishJob (success : Bool) (error : Option String) (hist : List JobRun) : List JobRun :=
  match hist with
  | [] => []
  | r :: rs =>
    if r.finished then r :: rs
    else
      { r with
        finished := true
        success := some success
        error := error
        logs := r.logs ++
          [if success then ">>> COMPLETED SUCCESS"
           else ">>> FAILED: " ++ error.getD "null"] } :: rs

/-- The start of a run as `runJob` performs it (source lines 197-198): a bare
unshift of a fresh unfinished run, immediately followed by the first log. -/
def beginRun (now : Nat) (time label : String) (hist : List JobRun) : List JobRun :=
  logJob now time ("Job Started: " ++ label) (⟨now, now, [], false, none, none⟩ :: hist)

/-- Process-wide mutable state the job touches: the in-memory cache and the
job history. -/
structure JobState where
  cache : List Json
  history : List JobRun

/-- The session key `dateStr-AM` / `dateStr-PM` (source line 203). -/
def sessionKey (dateStr : String) (isMorning : Bool) : String :=
  dateStr ++ "-" ++ (if isMorning then "AM" else "PM")

/-- The parameters of the durable upsert the job issues (source lines
222-226); `content` is the parsed array that gets stringified. -/
structure DbWrite where
  date_key : String
  display_date : String
  content : List Json

/-- Seal the current run as failed, as the `catch` block does (source lines
234-237): log the fatal error, then `finishJob(false, message)`. -/
def failSeal (now : Nat) (time e : String) (hist : List JobRun) : List JobRun :=
  finishJob false (some e) (logJob now time ("FATAL ERROR: " ++ e) hist)

/-- `runJob` (source lines 195-238) over oracle inputs: the per-source fetch
outcomes, the generative-model call outcome (`.error` for a missing API key or
a transport failure), and the durable-write outcome (`none` when no pool
handle exists).  Returns the final process state and the durable write the job
attempted, if any. -/
def runJob (isMorning : Bool) (now : Nat) (time dateStr : String)
    (fetches : List (Source × Except String Feed))
    (gen : Except String String)
    (pool : Option (Except String Unit))
    (st : JobState) : JobState × Option DbWrite :=
  let label := if isMorning then "Morning" else "Afternoon"
  let hist := beginRun now time label st.history
  let hist := logJob now time "Starting feed fetch..." hist
  let feedData := fetchFeedsContext fetches
  let hist := (fetchFeedsLogs fetches).foldl (fun h m => logJob now time m h) hist
  let hist :=
    if feedData.length < 50 then logJob now time "WARNING: Feed data extremely short." hist
    else hist
  let hist := logJob now time "Calling Gemini API..." hist
  match gen with
  | .error e => ({ st with history := failSeal now time e hist }, none)
  | .ok rawText =>
    let hist := logJob now time "Gemini response received." hist
    match parseStage rawText with
    | .error e => ({ st with history := failSeal now time e hist }, none)
    | .ok items =>
      let hist := logJob now time
        ("Memory cache updated (" ++ toString items.length ++ " items).") hist
      match pool with
      | none =>
        ({ cache := items
           history := finishJob true none
             (logJob now time "DB skipped (Not Configured). Data will be lost on restart." hist) },
         none)
      | some (.ok _) =>
        ({ cache := items
           history := finishJob true none (logJob now time "Saved to DB successfully." hist) },
         some ⟨sessionKey dateStr isMorning, dateStr, items⟩)
      | some (.error e) =>
        ({ cache := items, history := failSeal now time e hist },
         some ⟨sessionKey dateStr isMorning, dateStr, items⟩)

/-- The operator-facing placeholder item that seeds `inMemoryCache` at
startup (source lines 35-50); the startup wall-clock ISO string is a
parameter. -/
def placeholderItem (startTime : String) : Json :=
  .obj
    [ ("id", .str "sys-status")
    , ("title", .obj
        [ ("en", .str "⚠️ SYSTEM STATUS: Database Not Connected")
        , ("zh", .str "⚠️ 系统状态：未连接数据库") ])
    , ("summary", .obj
        [ ("en", .str ("The backend is running in 'Memory Mode'. If you have added DATABASE_URL to Railway, you MUST Redeploy the service for it to take effect. Check the Railway Build/Deploy logs to see the 'ENVIRONMENT DIAGNOSTIC' output."))
        , ("zh", .str "后端运行在“内存模式”。如果您已经在 Railway 添加了 DATABASE_URL，请务必“重新部署 (Redeploy)”服务以使其生效。请检查 Railway 的部署日志查看“ENVIRONMENT DIAGNOSTIC”输出。") ])
    , ("category", .str "System")
    , ("url", .str "#")
    , ("source", .str "System")
    , ("date", .str startTime)
    , ("impactScore", .num 10)
    , ("tags", .arr [.str "Config Required", .str "Action Needed"]) ]

/-- The initial in-memory cache: just the placeholder item. -/
def initialCache (startTime : String) : List Json := [placeholderItem startTime]

/-- A row of the `briefings` table as the read query returns it; `content`
is the JSONB column, which the driver may deliver as a string or as a
decoded value. -/
structure DbRow where
  date_key : String
  display_date : String
  content : Sum String Json
  created_at : Nat

/-- The semantics of `ORDER BY created_at DESC LIMIT 1`: at most one row,
holding the maximal `created_at`. -/
def maxRow : Option DbRow → List DbRow → Option DbRow
  | acc, [] => acc
  | none, x :: xs => maxRow (some x) xs
  | some b, x :: xs => maxRow (some (if b.created_at < x.created_at then x else b)) xs

/-- The row list the latest-briefing query returns for a given table state. -/
def latestRow (table : List DbRow) : List DbRow :=
  match maxRow none table with
  | none => []
  | some r => [r]

/-- `typeof content === 'string' ? JSON.parse(content) : content`; a throwing
`JSON.parse` is caught by the surrounding handler (modelled as `none`). -/
def decodeContent : Sum String Json → Option Json
  | .inl s => parseJson s
  | .inr j => some j

/-- The `GET /api/latest` handler (source lines 261-278) over the outcome of
the latest-briefing query: `none` when no pool handle exists, `.error` when
the query fails, `.ok rows` otherwise.  Every durable failure falls through
to the in-memory cache; the handler never produces an error response. -/
def readLatest (pool : Option (Except String (List DbRow))) (cache : List Json) : Json :=
  match pool with
  | none => .arr cache
  | some (.error _) => .arr cache
  | some (.ok []) => .arr cache
  | some (.ok (r :: _)) =>
    match decodeContent r.content with
    | some j => j
    | none => .arr cache

/-- Does a durable error message report the missing-relation condition? -/
def isTableMissing (msg : String) : Bool :=
  decide (("does not exist".toList : List Char) <:+: msg.toList)

/-- The durable store as the specified read path sees it: the first query
outcome, and the outcome of the retried query after the schema has been
created. -/
structure DbOracle where
  first : Except String (List DbRow)
  afterCreate : Except String (List DbRow)

/-- Modelled from the spec: the `readLatest` the specification describes,
including the self-healing step that is absent from the source — on a
"table does not exist" condition, create the schema once and retry the
query exactly once; any other durable error falls back to the cache. -/
def readLatestSpec (pool : Option DbOracle) (cache : List Json) : Json :=
  match pool with
  | none => .arr cache
  | some db =>
    match db.first with
    | .ok [] => .arr cache
    | .ok (r :: _) =>
      match decodeContent r.content with
      | some j => j
      | none => .arr cache
    | .error m =>
      if isTableMissing m then
        match db.afterCreate with
        | .ok (r :: _) =>
          match decodeContent r.content with
          | some j => j
          | none => .arr cache
        | _ => .arr cache
      else .arr cache

/-- The response of the `POST /api/trigger` handler. -/
inductive TriggerResponse where
  | configError (msg : String)
  | unauthorized (msg : String)
  | started (isMorning : Bool) (msg : String)
deriving DecidableEq

/-- Is the response an error status (500 or 401)? -/
def TriggerResponse.isError : TriggerResponse → Bool
  | .configError _ => true
  | .unauthorized _ => true
  | .started _ _ => false

/-- `!process.env.API_KEY`: the credential is missing when the variable is
absent or empty (JavaScript falsiness). -/
def keyMissing : Option String → Bool
  | none => true
  | some s => s = ""

/-- The morning-session flag of a manual trigger (source line 284):
computed from the server clock alone. -/
def isMorningOf (utcHours : Nat) : Bool := utcHours < 3

/-- The `POST /api/trigger` handler (source lines 280-287): reject when no
server credential is configured or the `authorization` header does not match
exactly; otherwise fire the job in the background (second component: the
`isMorning` flag it was started with) and answer immediately, without the
job's outcome. -/
def triggerJob (apiKey authHeader : Option String) (utcHours : Nat) :
    TriggerResponse × Option Bool :=
  match apiKey with
  | none => (.configError "API_KEY missing", none)
  | some k =>
    if k = "" then (.configError "API_KEY missing", none)
    else if authHeader = some k then
      (.started (isMorningOf utcHours) "Job started. Check /api/debug for progress.",
       some (isMorningOf utcHours))
    else (.unauthorized "Unauthorized", none)

/-! ### Derived definitions and concrete fixtures used by the analysis -/

/-- Field projection on a JSON object. -/
def lookupField (j : Json) (k : String) : Option Json :=
  match j with
  | .obj fs => fs.lookup k
  | _ => none

/-- Replace the published timestamp of an item. -/
def setPubItem (g : FeedItem → Option String) (i : FeedItem) : FeedItem :=
  { i with pubDate := g i }

/-- Replace every published timestamp in every fetched feed. -/
def mapPubDates (g : FeedItem → Option String)
    (fetches : List (Source × Except String Feed)) :
    List (Source × Except String Feed) :=
  fetches.map fun sr =>
    (sr.1,
     match sr.2 with
     | .error m => .error m
     | .ok f => .ok ⟨f.items.map (setPubItem g)⟩)

/-- Modelled from the spec: the per-source selection the specification
describes — "Keep at most 15 items per source, in feed order". -/
def keepSpec (items : List FeedItem) : List FeedItem := items.take 15

/-- A sample feed source. -/
def huggingFace : Source := ⟨"Hugging Face", "https://huggingface.co/blog/feed.xml"⟩

/-- A feed item with no published timestamp at all. -/
def staleItem : FeedItem :=
  ⟨"Undated stale story", "https://example.com/a", some "old snippet", none, none⟩

/-- A feed item with an ancient published timestamp. -/
def ancientItem : FeedItem :=
  ⟨"Ancient story", "https://example.com/b", some "snippet", none,
    some "1999-01-01T00:00:00Z"⟩

/-- Six distinct feed items, for exercising the per-source cap. -/
def numberedItem (n : Nat) : FeedItem :=
  ⟨"Item " ++ toString n, "https://example.com/" ++ toString n, some "s", none,
    some "2026-10-11T00:00:00Z"⟩

/-- A feed carrying six items. -/
def sixFeed : Feed := ⟨[numberedItem 1, numberedItem 2, numberedItem 3,
  numberedItem 4, numberedItem 5, numberedItem 6]⟩

/-- A raw model output whose single element carries bare-string `title` and
`summary` fields. -/
def c4raw : String := "[\x7b\"title\":\"X\",\"summary\":\"Y\"\x7d]"

/-- The element of `c4raw` as `JSON.parse` delivers it. -/
def c4item : Json := .obj [("title", .str "X"), ("summary", .str "Y")]

/-- A raw model output wrapping `body` in a fenced code block with the
language tag `json`. -/
def fenceJson (body : List Char) : List Char :=
  '`' :: '`' :: '`' :: 'j' :: 's' :: 'o' :: 'n' :: '\n' ::
    (body ++ '\n' :: '`' :: '`' :: '`' :: [])

/-- A raw model output wrapping `body` in a fenced code block with no
language tag. -/
def fenceBare (body : List Char) : List Char :=
  '`' :: '`' :: '`' :: '\n' :: (body ++ '\n' :: '`' :: '`' :: '`' :: [])

/-- The missing-relation error message Postgres produces on a read against an
absent table. -/
def missingTableMsg : String := "relation \"briefings\" does not exist"

/-- A durable row holding fresh content, distinct from the placeholder. -/
def sampleRow : DbRow := ⟨"2026-10-10-PM", "2026-10-10", .inr (.arr [.str "fresh"]), 7⟩

/-- A sealed (finished) job run, for populating concrete histories. -/
def dummyRun (n : Nat) : JobRun := ⟨n, n, [], true, some true, none⟩

/-- A history already holding five runs. -/
def fullHistory : List JobRun :=
  [dummyRun 1, dummyRun 2, dummyRun 3, dummyRun 4, dummyRun 5]

/-- The history is the current run (the fixed frame `r0` with some log list)
in front of a fixed tail. -/
def Framed (h : List JobRun) (r0 : JobRun) (rs : List JobRun) : Prop :=
  ∃ logs2, h = { r0 with logs := logs2 } :: rs

/-! ### Job-tracker lemmas -/

theorem logJob_cons_unfinished (now : Nat) (t m : String) (r : JobRun) (rs : List JobRun)
    (hf : r.finished = false) (hl : rs.length ≤ 4) :
    logJob now t m (r :: rs) = { r with logs := r.logs ++ [mkEntry t m] } :: rs := by
  unfold logJob
  simp only [hf, Bool.false_eq_true, if_false]
  rw [if_neg]
  simp only [List.length_cons]
  omega

theorem finishJob_cons_unfinished (b : Bool) (err : Option String) (r : JobRun)
    (rs : List JobRun) (hf : r.finished = false) :
    finishJob b err (r :: rs) =
      { r with
        finished := true
        success := some b
        error := err
        logs := r.logs ++
          [if b then ">>> COMPLETED SUCCESS" else ">>> FAILED: " ++ err.getD "null"] } :: rs := by
  unfold finishJob
  simp [hf]


theorem framed_logJob (now : Nat) (t m : String) (r0 : JobRun) (rs h : List JobRun)
    (hf : r0.finished = false) (hl : rs.length ≤ 4) (hh : Framed h r0 rs) :
    Framed (logJob now t m h) r0 rs := by
  obtain ⟨l2, rfl⟩ := hh
  rw [logJob_cons_unfinished now t m { r0 with logs := l2 } rs hf hl]
  exact ⟨l2 ++ [mkEntry t m], rfl⟩

theorem framed_foldl (now : Nat) (t : String) (msgs : List String) (r0 : JobRun)
    (rs : List JobRun) (hf : r0.finished = false) (hl : rs.length ≤ 4) :
    ∀ h, Framed h r0 rs →
      Framed (msgs.foldl (fun h m => logJob now t m h) h) r0 rs := by
  induction msgs with
  | nil => intro h hh; exact hh
  | cons m ms ih =>
    intro h hh
    exact ih _ (framed_logJob now t m r0 rs h hf hl hh)

theorem framed_ite (c : Prop) [Decidable c] (now : Nat) (t m : String) (r0 : JobRun)
    (rs h : List JobRun) (hf : r0.finished = false) (hl : rs.length ≤ 4)
    (hh : Framed h r0 rs) :
    Framed (if c then logJob now t m h else h) r0 rs := by
  by_cases hc : c
  · rw [if_pos hc]; exact framed_logJob now t m r0 rs h hf hl hh
  · rw [if_neg hc]; exact hh

theorem framed_failSeal (now : Nat) (t e : String) (r0 : JobRun) (rs h : List JobRun)
    (hf : r0.finished = false) (hl : rs.length ≤ 4) (hh : Framed h r0 rs) :
    ∃ run, failSeal now t e h = run :: rs ∧ run.finished = true ∧
      run.success = some false ∧ run.error = some e := by
  obtain ⟨l2, rfl⟩ := hh
  unfold failSeal
  rw [logJob_cons_unfinished now t ("FATAL ERROR: " ++ e) { r0 with logs := l2 } rs hf hl,
    finishJob_cons_unfinished false (some e)
      { r0 with logs := l2 ++ [mkEntry t ("FATAL ERROR: " ++ e)] } rs hf]
  exact ⟨_, rfl, rfl, rfl, rfl⟩

theorem framed_finishTrue (r0 : JobRun) (rs h : List JobRun)
    (hf : r0.finished = false) (hh : Framed h r0 rs) :
    ∃ run, finishJob true none h = run :: rs ∧ run.finished = true ∧
      run.success = some true ∧ run.error = none := by
  obtain ⟨l2, rfl⟩ := hh
  rw [finishJob_cons_unfinished true none { r0 with logs := l2 } rs hf]
  exact ⟨_, rfl, rfl, rfl, rfl⟩

theorem beginRun_frame (now : Nat) (t label : String) (hist : List JobRun)
    (hl : hist.length ≤ 5) :
    ∃ rs, beginRun now t label hist
        = (⟨now, now, [mkEntry t ("Job Started: " ++ label)], false, none, none⟩ : JobRun) :: rs
      ∧ rs.length ≤ 4 ∧
      (hist.length = 5 → rs = hist.dropLast) ∧ (hist.length ≤ 4 → rs = hist) := by
  have hstep : beginRun now t label hist =
      if ((⟨now, now, [mkEntry t ("Job Started: " ++ label)], false, none, none⟩ : JobRun)
            :: hist).length > 5
      then ((⟨now, now, [mkEntry t ("Job Started: " ++ label)], false, none, none⟩ : JobRun)
            :: hist).dropLast
      else (⟨now, now, [mkEntry t ("Job Started: " ++ label)], false, none, none⟩ : JobRun)
            :: hist := by
    unfold beginRun logJob
    simp
  by_cases h5 : hist.length = 5
  · have hne : hist ≠ [] := by intro h; rw [h] at h5; simp at h5
    refine ⟨hist.dropLast, ?_, ?_, fun _ => rfl, fun h4 => by omega⟩
    · rw [hstep, if_pos (by simp only [List.length_cons]; omega),
        List.dropLast_cons_of_ne_nil hne]
    · simp only [List.length_dropLast]
      omega
  · refine ⟨hist, ?_, by omega, fun h => absurd h h5, fun _ => rfl⟩
    rw [hstep, if_neg (by simp only [List.length_cons]; omega)]

theorem logJob_length_le (now : Nat) (t m : String) (hist : List JobRun)
    (hl : hist.length ≤ 5) : (logJob now t m hist).length ≤ 5 := by
  unfold logJob
  cases hist with
  | nil => simp
  | cons r rs =>
    dsimp only
    split_ifs <;>
      simp_all only [List.length_dropLast, List.length_cons] <;> omega

theorem finishJob_length (b : Bool) (err : Option String) (hist : List JobRun) :
    (finishJob b err hist).length = hist.length := by
  unfold finishJob
  cases hist with
  | nil => rfl
  | cons r rs =>
    dsimp only
    split_ifs <;> simp

theorem beginRun_length (now : Nat) (t label : String) (hist : List JobRun)
    (hl : hist.length ≤ 5) :
    (beginRun now t label hist).length = min (hist.length + 1) 5 := by
  obtain ⟨rs, heq, hle, h5, h4⟩ := beginRun_frame now t label hist hl
  by_cases hc : hist.length = 5
  · rw [heq, h5 hc]
    simp only [List.length_cons, List.length_dropLast, hc]
    omega
  · have hc4 : hist.length ≤ 4 := by omega
    rw [heq, h4 hc4]
    simp only [List.length_cons]
    omega

theorem beginRun_iterate_length (now : Nat) (t label : String) (n : Nat) :
    ((fun h => beginRun now t label h)^[n] ([] : List JobRun)).length = min n 5 := by
  induction n with
  | zero => simp
  | succ n ih =>
    rw [Function.iterate_succ_apply', beginRun_length now t label _ (by omega)]
    omega

/-! ### Fetch-loop lemmas -/

theorem fetchFeedsContext_skip (pre post : List (Source × Except String Feed))
    (s : Source) (m : String) :
    fetchFeedsContext (pre ++ (s, .error m) :: post) = fetchFeedsContext (pre ++ post) := by
  unfold fetchFeedsContext
  rw [List.foldl_append, List.foldl_append, List.foldl_cons]

theorem contextItems_skip (pre post : List (Source × Except String Feed))
    (s : Source) (m : String) :
    contextItems (pre ++ (s, .error m) :: post) = contextItems (pre ++ post) := by
  unfold contextItems
  rw [List.foldl_append, List.foldl_append, List.foldl_cons]
  simp [sourceItems]

theorem contextItems_foldl_flatMap (l : List (Source × Except String Feed)) :
    ∀ acc, l.foldl (fun a sr => a ++ sourceItems sr.2) acc
      = acc ++ l.flatMap (fun sr => sourceItems sr.2) := by
  induction l with
  | nil => intro acc; simp
  | cons hd tl ih =>
    intro acc
    rw [List.foldl_cons, ih, List.flatMap_cons, List.append_assoc]

theorem contextItems_eq_flatMap (fetches : List (Source × Except String Feed)) :
    contextItems fetches = fetches.flatMap fun sr => sourceItems sr.2 := by
  unfold contextItems
  rw [contextItems_foldl_flatMap]
  exact (List.nil_append _)

theorem contextItems_foldl_mono (l : List (Source × Except String Feed))
    (x : FeedItem) :
    ∀ acc, x ∈ acc → x ∈ l.foldl (fun a sr => a ++ sourceItems sr.2) acc := by
  induction l with
  | nil => intro acc h; exact h
  | cons hd tl ih =>
    intro acc h
    rw [List.foldl_cons]
    exact ih _ (List.mem_append_left _ h)

theorem contextItems_foldl_mem (s : Source) (r : Except String Feed) (x : FeedItem)
    (hx : x ∈ sourceItems r) :
    ∀ (l : List (Source × Except String Feed)) acc, (s, r) ∈ l →
      x ∈ l.foldl (fun a sr => a ++ sourceItems sr.2) acc := by
  intro l
  induction l with
  | nil => intro acc h; cases h
  | cons hd tl ih =>
    intro acc h
    rw [List.foldl_cons]
    rcases List.mem_cons.mp h with heq | htl
    · subst heq
      exact contextItems_foldl_mono tl x _ (List.mem_append_right _ hx)
    · exact ih _ htl

theorem contextItems_mem (fetches : List (Source × Except String Feed))
    (s : Source) (r : Except String Feed) (x : FeedItem)
    (hmem : (s, r) ∈ fetches) (hx : x ∈ sourceItems r) :
    x ∈ contextItems fetches :=
  contextItems_foldl_mem s r x hx fetches [] hmem

theorem contextItems_foldl_length (l : List (Source × Except String Feed)) :
    ∀ acc, (l.foldl (fun a sr => a ++ sourceItems sr.2) acc).length
      ≤ acc.length + 5 * l.length := by
  induction l with
  | nil => intro acc; simp
  | cons hd tl ih =>
    intro acc
    rw [List.foldl_cons]
    have h1 := ih (acc ++ sourceItems hd.2)
    have h2 : (sourceItems hd.2).length ≤ 5 := by
      cases hr : hd.2 with
      | error m => simp [sourceItems]
      | ok f => simp only [sourceItems]; exact List.length_take_le 5 f.items
    simp only [List.length_append] at h1
    simp only [List.length_cons]
    omega

theorem contextItems_length (fetches : List (Source × Except String Feed)) :
    (contextItems fetches).length ≤ 5 * fetches.length := by
  simpa using contextItems_foldl_length fetches []

theorem sourceItems_length (r : Except String Feed) : (sourceItems r).length ≤ 5 := by
  cases r with
  | error m => simp [sourceItems]
  | ok f => simp only [sourceItems]; exact List.length_take_le 5 f.items

theorem sourceItems_prefix (f : Feed) : sourceItems (.ok f) <+: f.items :=
  List.take_prefix 5 f.items

/-! ### Published-timestamp invariance -/

theorem renderItem_setPub (g : FeedItem → Option String) (i : FeedItem) :
    renderItem (setPubItem g i) = renderItem i := by
  cases i; rfl

theorem sourceBlock_setPub (g : FeedItem → Option String) (s : Source) (f : Feed) :
    sourceBlock s ⟨f.items.map (setPubItem g)⟩ = sourceBlock s f := by
  unfold sourceBlock
  congr 1
  rw [← List.map_take, List.map_map]
  refine congrArg String.join (List.map_congr_left fun a _ => ?_)
  exact renderItem_setPub g a

theorem fetchFeedsContext_mapPubDates (g : FeedItem → Option String)
    (fetches : List (Source × Except String Feed)) :
    fetchFeedsContext (mapPubDates g fetches) = fetchFeedsContext fetches := by
  unfold fetchFeedsContext mapPubDates
  generalize "RAW FEED DATA:\n" = init
  induction fetches generalizing init with
  | nil => rfl
  | cons hd tl ih =>
    rw [List.map_cons, List.foldl_cons, List.foldl_cons]
    cases hr : hd.2 with
    | error m => simpa using ih init
    | ok f =>
      simp only
      rw [sourceBlock_setPub g hd.1 f]
      exact ih _


/-! ### Fence-stripping lemmas -/

theorem startsWithFence_false (c : Char) (t : List Char) (hc : c ≠ '`') :
    startsWithFence (c :: t) = false := by
  simp [startsWithFence, List.take_succ_cons, hc]

theorem startsWithFence_fence (r : List Char) :
    startsWithFence ('`' :: '`' :: '`' :: r) = true := by
  simp [startsWithFence, List.take_succ_cons]

theorem dropWhile_ws_ne_nil (s : List Char) (hs : s ≠ [])
    (hlast : isWsChar (s.getLast hs) = false) : s.dropWhile isWsChar ≠ [] := by
  intro h
  have hall := List.dropWhile_eq_nil_iff.mp h
  have := hall _ (List.getLast_mem hs)
  rw [hlast] at this
  exact Bool.false_ne_true this

theorem head_dropWhile_mem (p : Char → Bool) (s : List Char)
    (h : s.dropWhile p ≠ []) : (s.dropWhile p).head h ∈ s := by
  have hsuf : s.dropWhile p <:+ s := List.dropWhile_suffix p
  exact hsuf.subset (List.head_mem h)

theorem fence_check_false (s r : List Char) (hs : s ≠ []) (hnb : '`' ∉ s)
    (hlast : isWsChar (s.getLast hs) = false) :
    startsWithFence ((s ++ r).dropWhile isWsChar) = false := by
  rw [List.dropWhile_append]
  have hne := dropWhile_ws_ne_nil s hs hlast
  rw [if_neg (by simpa [List.isEmpty_iff] using hne)]
  obtain ⟨c, t, hct⟩ := List.exists_cons_of_ne_nil hne
  rw [hct, List.cons_append]
  apply startsWithFence_false
  have hcmem : c ∈ s := by
    have : c ∈ s.dropWhile isWsChar := by rw [hct]; exact List.mem_cons_self c t
    exact (List.dropWhile_suffix isWsChar).subset this
  exact fun h => hnb (h ▸ hcmem)

theorem findClose_through (tail : List Char) :
    ∀ (s acc : List Char), '`' ∉ s →
      (∀ (hs : s ≠ []), isWsChar (s.getLast hs) = false) →
      findClose acc (s ++ '\n' :: '`' :: '`' :: '`' :: tail)
        = some (acc.reverse ++ s) := by
  intro s
  induction s with
  | nil =>
    intro acc _ _
    rw [List.nil_append, findClose]
    rw [if_pos]
    · simp
    · have : ('\n' :: '`' :: '`' :: '`' :: tail).dropWhile isWsChar
          = '`' :: '`' :: '`' :: tail := by
        rw [List.dropWhile_cons]
        rw [if_pos (by decide), List.dropWhile_cons, if_neg (by decide)]
      rw [this]
      exact startsWithFence_fence tail
  | cons x xs ih =>
    intro acc hnb hlast
    rw [List.cons_append, findClose]
    have hcheck : startsWithFence
        ((x :: (xs ++ '\n' :: '`' :: '`' :: '`' :: tail)).dropWhile isWsChar) = false := by
      have := fence_check_false (x :: xs) ('\n' :: '`' :: '`' :: '`' :: tail)
        (List.cons_ne_nil x xs) hnb (hlast (List.cons_ne_nil x xs))
      rwa [List.cons_append] at this
    rw [if_neg (by rw [hcheck]; exact Bool.false_ne_true)]
    have ihx := ih (x :: acc) (fun h => hnb (List.mem_cons_of_mem x h)) ?_
    · rw [ihx]
      simp [List.append_assoc]
    · intro hxs
      have := hlast (List.cons_ne_nil x xs)
      rwa [List.getLast_cons hxs] at this


theorem trimList_eq_self (cs : List Char) (hcs : cs ≠ [])
    (hh : isWsChar (cs.head hcs) = false) (hl : isWsChar (cs.getLast hcs) = false) :
    trimList cs = cs := by
  unfold trimList
  obtain ⟨c, t, rfl⟩ := List.exists_cons_of_ne_nil hcs
  rw [List.dropWhile_cons, if_neg (by simp_all)]
  have hrne : (c :: t).reverse ≠ [] := by simp
  obtain ⟨d, u, hdu⟩ := List.exists_cons_of_ne_nil hrne
  have hd : d = (c :: t).getLast hcs := by
    have h1 : (c :: t).reverse.head? = (c :: t).getLast? := List.head?_reverse (c :: t)
    rw [hdu] at h1
    simp only [List.head?_cons] at h1
    rw [List.getLast?_eq_getLast _ hcs] at h1
    exact (Option.some_injective _ h1)
  rw [hdu, List.dropWhile_cons, if_neg (by rw [hd]; simp_all), ← hdu, List.reverse_reverse]

theorem restMatch_newline_body (body : List Char) (hb : body ≠ []) (hnb : '`' ∉ body)
    (hhead : isWsChar (body.head hb) = false)
    (hlast : isWsChar (body.getLast hb) = false) :
    restMatch ('\n' :: (body ++ '\n' :: '`' :: '`' :: '`' :: [])) = some body := by
  unfold restMatch
  obtain ⟨c, t, rfl⟩ := List.exists_cons_of_ne_nil hb
  simp only [List.head_cons] at hhead
  have hdw : (('\n' : Char) :: ((c :: t) ++ '\n' :: '`' :: '`' :: '`' :: [])).dropWhile isWsChar
      = (c :: t) ++ '\n' :: '`' :: '`' :: '`' :: [] := by
    rw [List.dropWhile_cons, if_pos (by decide), List.cons_append,
      List.dropWhile_cons, if_neg (by simp [hhead]), ← List.cons_append]
  rw [hdw]
  have := findClose_through [] (c :: t) [] hnb (fun _ => hlast)
  simpa using this

theorem matchAt_fenceJson (body : List Char) (hb : body ≠ []) (hnb : '`' ∉ body)
    (hhead : isWsChar (body.head hb) = false)
    (hlast : isWsChar (body.getLast hb) = false) :
    matchAt (fenceJson body) = some body := by
  unfold matchAt fenceJson
  rw [if_pos (by exact startsWithFence_fence _)]
  simp only [List.drop_succ_cons, List.drop_zero, List.take_succ_cons, List.take_zero,
    if_true]
  rw [restMatch_newline_body body hb hnb hhead hlast]

theorem matchAt_fenceBare (body : List Char) (hb : body ≠ []) (hnb : '`' ∉ body)
    (hhead : isWsChar (body.head hb) = false)
    (hlast : isWsChar (body.getLast hb) = false) :
    matchAt (fenceBare body) = some body := by
  unfold matchAt fenceBare
  rw [if_pos (by exact startsWithFence_fence _)]
  simp only [List.drop_succ_cons, List.drop_zero, List.take_succ_cons, List.take_zero]
  rw [if_neg (by simp)]
  rw [restMatch_newline_body body hb hnb hhead hlast]


theorem fenceJson_append_form (body : List Char) :
    fenceJson body
      = ('`' :: '`' :: '`' :: 'j' :: 's' :: 'o' :: 'n' :: '\n' :: body)
        ++ ('\n' :: '`' :: '`' :: '`' :: []) := by
  simp [fenceJson]

theorem fenceBare_append_form (body : List Char) :
    fenceBare body
      = ('`' :: '`' :: '`' :: '\n' :: body) ++ ('\n' :: '`' :: '`' :: '`' :: []) := by
  simp [fenceBare]

theorem getLast_fenceJson (body : List Char) (h : fenceJson body ≠ []) :
    (fenceJson body).getLast h = '`' := by
  rw [List.getLast_congr _ _ (fenceJson_append_form body)]
  rw [List.getLast_append' _ _ (by simp)]
  rfl

theorem getLast_fenceBare (body : List Char) (h : fenceBare body ≠ []) :
    (fenceBare body).getLast h = '`' := by
  rw [List.getLast_congr _ _ (fenceBare_append_form body)]
  rw [List.getLast_append' _ _ (by simp)]
  rfl

theorem cleanJson_fenceJson (body : List Char) (hb : body ≠ []) (hnb : '`' ∉ body)
    (hhead : isWsChar (body.head hb) = false)
    (hlast : isWsChar (body.getLast hb) = false) :
    cleanJson (String.mk (fenceJson body)) = String.mk body := by
  unfold cleanJson
  rw [if_neg (by simp [fenceJson, String.ext_iff])]
  have htl : (String.mk (fenceJson body)).toList = fenceJson body := rfl
  rw [htl, trimList_eq_self (fenceJson body) (by simp [fenceJson]) (by rfl)
    (by rw [getLast_fenceJson]; rfl)]
  have hfm : firstMatch (fenceJson body) = some body := by
    unfold fenceJson
    rw [firstMatch]
    have := matchAt_fenceJson body hb hnb hhead hlast
    unfold fenceJson at this
    rw [this]
  dsimp only
  rw [hfm]

theorem cleanJson_fenceBare (body : List Char) (hb : body ≠ []) (hnb : '`' ∉ body)
    (hhead : isWsChar (body.head hb) = false)
    (hlast : isWsChar (body.getLast hb) = false) :
    cleanJson (String.mk (fenceBare body)) = String.mk body := by
  unfold cleanJson
  rw [if_neg (by simp [fenceBare, String.ext_iff])]
  have htl : (String.mk (fenceBare body)).toList = fenceBare body := rfl
  rw [htl, trimList_eq_self (fenceBare body) (by simp [fenceBare]) (by rfl)
    (by rw [getLast_fenceBare]; rfl)]
  have hfm : firstMatch (fenceBare body) = some body := by
    unfold fenceBare
    rw [firstMatch]
    have := matchAt_fenceBare body hb hnb hhead hlast
    unfold fenceBare at this
    rw [this]
  dsimp only
  rw [hfm]

/-! ### Latest-row lemmas -/

theorem maxRow_spec (xs : List DbRow) :
    ∀ (acc : Option DbRow) (r : DbRow), maxRow acc xs = some r →
      (acc = some r ∨ r ∈ xs)
      ∧ (∀ b, acc = some b → b.created_at ≤ r.created_at)
      ∧ (∀ x ∈ xs, x.created_at ≤ r.created_at) := by
  induction xs with
  | nil =>
    intro acc r h
    cases acc with
    | none => simp [maxRow] at h
    | some b =>
      simp only [maxRow] at h
      refine ⟨Or.inl h, ?_, ?_⟩
      · intro b2 hb2
        injection h with h
        injection hb2 with hb2
        subst h
        subst hb2
        exact le_refl _
      · intro y hy
        exact absurd hy (List.not_mem_nil y)
  | cons x xs ih =>
    intro acc r h
    cases acc with
    | none =>
      simp only [maxRow] at h
      obtain ⟨h1, h2, h3⟩ := ih (some x) r h
      refine ⟨?_, ?_, ?_⟩
      · rcases h1 with h1 | h1
        · injection h1 with h1
          subst h1
          exact Or.inr (List.mem_cons_self _ _)
        · exact Or.inr (List.mem_cons_of_mem x h1)
      · intro b hb
        exact absurd hb (by simp)
      · intro y hy
        rcases List.mem_cons.mp hy with hy | hy
        · subst hy
          exact h2 y rfl
        · exact h3 y hy
    | some b =>
      simp only [maxRow] at h
      by_cases hcmp : b.created_at < x.created_at
      · rw [if_pos hcmp] at h
        obtain ⟨h1, h2, h3⟩ := ih _ r h
        refine ⟨?_, ?_, ?_⟩
        · rcases h1 with h1 | h1
          · injection h1 with h1
            subst h1
            exact Or.inr (List.mem_cons_self _ _)
          · exact Or.inr (List.mem_cons_of_mem x h1)
        · intro b2 hb2
          injection hb2 with hb2
          subst hb2
          exact le_of_lt (lt_of_lt_of_le hcmp (h2 x rfl))
        · intro y hy
          rcases List.mem_cons.mp hy with hy | hy
          · subst hy
            exact h2 y rfl
          · exact h3 y hy
      · rw [if_neg hcmp] at h
        obtain ⟨h1, h2, h3⟩ := ih _ r h
        refine ⟨?_, ?_, ?_⟩
        · rcases h1 with h1 | h1
          · exact Or.inl h1
          · exact Or.inr (List.mem_cons_of_mem x h1)
        · intro b2 hb2
          injection hb2 with hb2
          subst hb2
          exact h2 b rfl
        · intro y hy
          rcases List.mem_cons.mp hy with hy | hy
          · subst hy
            exact le_trans (le_of_not_lt hcmp) (h2 b rfl)
          · exact h3 y hy

theorem latestRow_spec (table : List DbRow) (r : DbRow)
    (h : latestRow table = [r]) :
    r ∈ table ∧ ∀ x ∈ table, x.created_at ≤ r.created_at := by
  unfold latestRow at h
  cases hm : maxRow none table with
  | none => rw [hm] at h; cases h
  | some r2 =>
    rw [hm] at h
    simp only [List.cons.injEq, and_true] at h
    subst h
    obtain ⟨h1, _, h3⟩ := maxRow_spec table none r2 hm
    rcases h1 with h1 | h1
    · cases h1
    · exact ⟨h1, h3⟩

theorem latestRow_length (table : List DbRow) : (latestRow table).length ≤ 1 := by
  unfold latestRow
  cases maxRow none table <;> simp


/-! ### The claims -/

/-- C6 (confirmed): a fetch failure on one source is logged with a
`Skipped` line and contributes nothing, and it never changes what any other
source contributes to the assembled context: the context (and its item
sequence) with the failing source present equals the one with it removed,
and the job-level fetch loop is total (it returns a context rather than
propagating the error). -/
theorem c6_fetch_isolation (pre post : List (Source × Except String Feed))
    (s : Source) (m : String) :
    fetchFeedsContext (pre ++ (s, .error m) :: post) = fetchFeedsContext (pre ++ post)
    ∧ contextItems (pre ++ (s, .error m) :: post) = contextItems (pre ++ post)
    ∧ ("Skipped " ++ s.name ++ ": " ++ m) ∈ fetchFeedsLogs (pre ++ (s, .error m) :: post) := by
  refine ⟨fetchFeedsContext_skip pre post s m, contextItems_skip pre post s m, ?_⟩
  unfold fetchFeedsLogs
  refine List.mem_map.mpr ⟨(s, .error m), ?_, rfl⟩
  exact List.mem_append_right pre (List.mem_cons_self _ _)

/-- C9 (confirmed): the trigger endpoint fails (with a 500
configuration-error response) when no server credential is configured, fails
(401) when the supplied `authorization` header does not exactly match, and
otherwise fires the job in the background and answers immediately with a
fixed message; a job is spawned exactly when the response is not an error. -/
theorem c9_trigger_auth (apiKey authHeader : Option String) (h : Nat) :
    (keyMissing apiKey = true →
      triggerJob apiKey authHeader h = (.configError "API_KEY missing", none))
    ∧ (∀ k, apiKey = some k → keyMissing apiKey = false → authHeader ≠ some k →
      triggerJob apiKey authHeader h = (.unauthorized "Unauthorized", none))
    ∧ (∀ k, apiKey = some k → keyMissing apiKey = false → authHeader = some k →
      triggerJob apiKey authHeader h =
        (.started (isMorningOf h) "Job started. Check /api/debug for progress.",
         some (isMorningOf h)))
    ∧ ((triggerJob apiKey authHeader h).1.isError = true
        ↔ (triggerJob apiKey authHeader h).2 = none) := by
  refine ⟨?_, ?_, ?_, ?_⟩
  · intro hk
    cases apiKey with
    | none => rfl
    | some k =>
      have hke : k = "" := by simpa [keyMissing] using hk
      simp [triggerJob, hke]
  · intro k hk hkm hne
    subst hk
    have hk2 : ¬(k = "") := by simpa [keyMissing] using hkm
    simp [triggerJob, hk2, hne]
  · intro k hk hkm heq
    subst hk
    have hk2 : ¬(k = "") := by simpa [keyMissing] using hkm
    simp [triggerJob, hk2, heq]
  · cases apiKey with
    | none => simp [triggerJob, TriggerResponse.isError]
    | some k =>
      by_cases hk : k = ""
      · simp [triggerJob, hk, TriggerResponse.isError]
      · by_cases hh : authHeader = some k
        · simp [triggerJob, hk, hh, TriggerResponse.isError]
        · simp [triggerJob, hk, hh, TriggerResponse.isError]

/-- Witness for C9 at concrete credentials. -/
theorem c9_trigger_auth_witness :
    triggerJob (some "secret") (some "secret") 4
      = (.started false "Job started. Check /api/debug for progress.", some false)
    ∧ triggerJob (some "secret") (some "wrong") 4 = (.unauthorized "Unauthorized", none)
    ∧ triggerJob none (some "secret") 4 = (.configError "API_KEY missing", none) := by
  refine ⟨?_, ?_, ?_⟩
  · exact (c9_trigger_auth (some "secret") (some "secret") 4).2.2.1 "secret" rfl
      (by decide) rfl
  · exact (c9_trigger_auth (some "secret") (some "wrong") 4).2.1 "secret" rfl
      (by decide) (by decide)
  · exact (c9_trigger_auth none (some "secret") 4).1 rfl

/-- C10 (confirmed): the manual trigger computes its morning flag solely from
the server clock as `utcHours < 3`; at or after 03:00 UTC the spawned job
runs with the afternoon flag, and a successful job run with that flag writes
the `-PM` session key. -/
theorem c10_session_flag (k : String) (authHeader : Option String) (h : Nat)
    (dateStr : String) (hk : k ≠ "") (hauth : authHeader = some k) (hh : 3 ≤ h) :
    (triggerJob (some k) authHeader h).2 = some false
    ∧ sessionKey dateStr false = dateStr ++ "-PM"
    ∧ (∀ (now : Nat) (t : String) (fetches : List (Source × Except String Feed))
        (raw : String) (items : List Json) (st : JobState),
        parseStage raw = .ok items →
        (runJob false now t dateStr fetches (.ok raw) (some (.ok ())) st).2
          = some ⟨sessionKey dateStr false, dateStr, items⟩) := by
  have hm : isMorningOf h = false := by
    simp only [isMorningOf, decide_eq_false_iff_not]
    omega
  refine ⟨?_, ?_, ?_⟩
  · simp [triggerJob, hk, hauth, hm]
  · rw [sessionKey, if_neg (by simp), String.append_assoc]
    exact congrArg (fun q => dateStr ++ q) (by decide)
  · intro now t fetches raw items st hparse
    simp only [runJob, hparse]

/-- Witness for C10 at 15:00 UTC. -/
theorem c10_session_flag_witness :
    (triggerJob (some "secret") (some "secret") 15).2 = some false
    ∧ sessionKey "2026-10-11" false = "2026-10-11-PM"
    ∧ (runJob false 0 "t" "2026-10-11" [] (.ok "[]") (some (.ok ())) ⟨[], []⟩).2
        = some ⟨"2026-10-11-PM", "2026-10-11", []⟩ := by
  obtain ⟨h1, h2, h3⟩ := c10_session_flag "secret" (some "secret") 15 "2026-10-11"
    (by decide) rfl (by omega)
  refine ⟨h1, h2, ?_⟩
  have h4 := h3 0 "t" [] "[]" [] ⟨[], []⟩ rfl
  rw [h2] at h4
  exact h4


/-- C2 counterexample: the claim says an item whose published timestamp is
missing is dropped, and that every item of the assembled context carries a
parseable `publishedAt`; but the loop renders the first five items of each
feed without ever reading a date, so an undated item (and an item from 1999)
lands in the context. -/
theorem c2_recency_counterexample :
    staleItem.pubDate = none
    ∧ staleItem ∈ contextItems [(huggingFace, .ok ⟨[staleItem]⟩)]
    ∧ fetchFeedsContext [(huggingFace, .ok ⟨[staleItem]⟩)]
        = "RAW FEED DATA:\n--- SOURCE: Hugging Face ---\nTitle: Undated stale story\nLink: https://example.com/a\nSnippet: old snippet...\n\n"
    ∧ ancientItem.pubDate = some "1999-01-01T00:00:00Z"
    ∧ ancientItem ∈ contextItems [(huggingFace, .ok ⟨[staleItem, ancientItem]⟩)] := by
  refine ⟨rfl, by decide, ?_, rfl, by decide⟩
  set_option maxRecDepth 4096 in rfl

/-- C2 (corrected): the assembler performs no date parsing and no recency
filtering at all — the assembled context is invariant under arbitrary
replacement of every published timestamp, and any item among the first five
of a successfully fetched feed appears in the context regardless of its
date. -/
theorem c2_recency_amended :
    (∀ (g : FeedItem → Option String) (fetches : List (Source × Except String Feed)),
      fetchFeedsContext (mapPubDates g fetches) = fetchFeedsContext fetches)
    ∧ (∀ (fetches : List (Source × Except String Feed)) (s : Source) (f : Feed)
        (i : FeedItem), (s, Except.ok f) ∈ fetches → i ∈ f.items.take 5 →
        i ∈ contextItems fetches) := by
  constructor
  · exact fetchFeedsContext_mapPubDates
  · intro fetches s f i hmem hi
    exact contextItems_mem fetches s (.ok f) i hmem (by simpa [sourceItems] using hi)

/-- Witness for C2 at a one-source fetch holding the undated item. -/
theorem c2_recency_witness :
    fetchFeedsContext (mapPubDates (fun _ => none) [(huggingFace, .ok ⟨[staleItem]⟩)])
      = fetchFeedsContext [(huggingFace, .ok ⟨[staleItem]⟩)]
    ∧ staleItem ∈ contextItems [(huggingFace, .ok ⟨[staleItem]⟩)] := by
  constructor
  · exact c2_recency_amended.1 (fun _ => none) [(huggingFace, .ok ⟨[staleItem]⟩)]
  · exact c2_recency_amended.2 [(huggingFace, .ok ⟨[staleItem]⟩)] huggingFace
      ⟨[staleItem]⟩ staleItem (List.mem_singleton.mpr rfl) (by decide)

/-- C3 counterexample: the claim describes the per-source selection as the
first up-to-fifteen items in feed order; on a six-item feed that selection
keeps all six, but the code keeps only the first five (`slice(0, 5)`), so the
sixth item is dropped. -/
theorem c3_cap_counterexample :
    sixFeed.items.length = 6
    ∧ (6 : Nat) ≤ 15
    ∧ contextItems [(huggingFace, .ok sixFeed)]
        = [numberedItem 1, numberedItem 2, numberedItem 3, numberedItem 4, numberedItem 5]
    ∧ keepSpec sixFeed.items = sixFeed.items
    ∧ contextItems [(huggingFace, .ok sixFeed)] ≠ keepSpec sixFeed.items
    ∧ numberedItem 6 ∉ contextItems [(huggingFace, .ok sixFeed)]
    ∧ numberedItem 6 ∈ keepSpec sixFeed.items := by
  refine ⟨rfl, by norm_num, by decide, by decide, by decide, by decide, by decide⟩

/-- C3 (corrected): the per-source cap is five, not fifteen — each source
contributes the first at-most-five items of its feed, in feed order (a
prefix), and a context over any fetch outcomes holds at most five items per
source. -/
theorem c3_cap_amended :
    (∀ r : Except String Feed, (sourceItems r).length ≤ 5)
    ∧ (∀ f : Feed, sourceItems (.ok f) <+: f.items)
    ∧ (∀ fetches : List (Source × Except String Feed),
        (contextItems fetches).length ≤ 5 * fetches.length) :=
  ⟨sourceItems_length, sourceItems_prefix, contextItems_length⟩


/-- C1 counterexample: on the specific "table does not exist" error the
handler does not create the schema and does not retry — it falls straight
back to the cache, while the specified read path would retry after creating
the schema and return the fresh durable row. -/
theorem c1_readLatest_counterexample :
    readLatest (some (.error missingTableMsg)) (initialCache "T0")
      = .arr (initialCache "T0")
    ∧ isTableMissing missingTableMsg = true
    ∧ readLatestSpec (some ⟨.error missingTableMsg, .ok [sampleRow]⟩) (initialCache "T0")
      = .arr [.str "fresh"]
    ∧ Json.arr (initialCache "T0") ≠ Json.arr [.str "fresh"] := by
  refine ⟨rfl, by decide, ?_, ?_⟩
  · have hm : isTableMissing missingTableMsg = true := by decide
    simp only [readLatestSpec, hm, if_true, decodeContent]
    rfl
  · intro h
    injection h with h2
    simp [initialCache, placeholderItem] at h2

/-- C1 (corrected): the read endpoint never produces a hard error — with no
durable handle, on ANY durable error (a missing table included, with no
schema creation or retry at read time), on an empty result, or on undecodable
row content, it returns the in-memory cache (worst case the placeholder
item); when a decodable row comes back it returns that row's content, and
the latest-row query indeed selects a row with maximal creation time. -/
theorem c1_readLatest_amended (pool : Option (Except String (List DbRow)))
    (cache : List Json) :
    (pool = none → readLatest pool cache = .arr cache)
    ∧ (∀ m, pool = some (.error m) → readLatest pool cache = .arr cache)
    ∧ (pool = some (.ok []) → readLatest pool cache = .arr cache)
    ∧ (∀ r rest j, pool = some (.ok (r :: rest)) → decodeContent r.content = some j →
        readLatest pool cache = j)
    ∧ (∀ r rest, pool = some (.ok (r :: rest)) → decodeContent r.content = none →
        readLatest pool cache = .arr cache)
    ∧ (∀ (table : List DbRow) (r : DbRow), latestRow table = [r] →
        r ∈ table ∧ ∀ x ∈ table, x.created_at ≤ r.created_at)
    ∧ (∀ table : List DbRow, (latestRow table).length ≤ 1) := by
  refine ⟨?_, ?_, ?_, ?_, ?_, latestRow_spec, latestRow_length⟩
  · intro h; subst h; rfl
  · intro m h; subst h; rfl
  · intro h; subst h; rfl
  · intro r rest j h hd
    subst h
    simp [readLatest, hd]
  · intro r rest h hd
    subst h
    simp [readLatest, hd]

/-- Witness for C1 across the fallback cases at concrete inputs. -/
theorem c1_readLatest_witness :
    readLatest (some (.error "boom")) [] = .arr []
    ∧ readLatest none (initialCache "T0") = .arr (initialCache "T0")
    ∧ readLatest (some (.ok [])) [] = .arr []
    ∧ readLatest (some (.ok [sampleRow])) [] = .arr [.str "fresh"] := by
  refine ⟨?_, ?_, ?_, ?_⟩
  · exact (c1_readLatest_amended _ _).2.1 "boom" rfl
  · exact (c1_readLatest_amended _ _).1 rfl
  · exact (c1_readLatest_amended _ _).2.2.1 rfl
  · exact (c1_readLatest_amended _ _).2.2.2.1 sampleRow [] (.arr [.str "fresh"]) rfl rfl

/-- C4 counterexample: given the model output `[{"title":"X","summary":"Y"}]`
the pipeline stores the element unchanged — `title` stays the bare string
`"X"` (not the bilingual pair), and no `id` or `date` is assigned. -/
theorem c4_sanitizer_counterexample :
    parseStage c4raw = .ok [c4item]
    ∧ (runJob false 0 "t" "2026-10-11" [] (.ok c4raw) none
        ⟨initialCache "T0", []⟩).1.cache = [c4item]
    ∧ lookupField c4item "title" = some (.str "X")
    ∧ lookupField c4item "summary" = some (.str "Y")
    ∧ Json.str "X" ≠ Json.obj [("en", .str "X"), ("zh", .str "X")]
    ∧ lookupField c4item "id" = none
    ∧ lookupField c4item "date" = none := by
  refine ⟨rfl, rfl, rfl, rfl, fun h => Json.noConfusion h, rfl, rfl⟩

/-- C4 (corrected): the code performs no per-element sanitization at all —
after fence stripping, JSON parsing and the array check, the parsed elements
are stored in the cache unchanged (no bilingual coercion of bare strings, no
generated ids, no date substitution). -/
theorem c4_sanitizer_amended (isMorning : Bool) (now : Nat) (t dateStr : String)
    (fetches : List (Source × Except String Feed)) (raw : String)
    (items : List Json) (st : JobState) (hparse : parseStage raw = .ok items) :
    (runJob isMorning now t dateStr fetches (.ok raw) none st).1.cache = items := by
  simp only [runJob, hparse]

/-- Witness for C4 at the bare-string model output. -/
theorem c4_sanitizer_witness :
    (runJob false 0 "t" "d" [] (.ok c4raw) none ⟨[], []⟩).1.cache = [c4item] :=
  c4_sanitizer_amended false 0 "t" "d" [] c4raw [c4item] ⟨[], []⟩ rfl


/-- C5 counterexample: with generation and parsing succeeding and only the
durable write failing, the cache holds the new items but the job is sealed
as FAILED, not as a success. -/
theorem c5_upsert_counterexample :
    (runJob false 0 "00:00:00" "2026-10-11" [] (.ok "[]")
        (some (.error "connection refused")) ⟨initialCache "T0", []⟩).1.cache = []
    ∧ ((runJob false 0 "00:00:00" "2026-10-11" [] (.ok "[]")
        (some (.error "connection refused")) ⟨initialCache "T0", []⟩).1.history.map
          fun r => (r.finished, r.success, r.error))
        = [(true, some false, some "connection refused")] := by
  exact ⟨rfl, rfl⟩

/-- C5 (corrected): the cache slot is overwritten before the durable write
is attempted — on a durable-write failure the cache still holds the new
items — but the failure IS fatal to the job: the `await pool.query` rejection
reaches the catch block and the run is sealed with `success = false` and the
write error recorded. -/
theorem c5_upsert_amended (isMorning : Bool) (now : Nat) (t dateStr : String)
    (fetches : List (Source × Except String Feed)) (raw : String)
    (items : List Json) (e : String) (st : JobState)
    (hl : st.history.length ≤ 5) (hparse : parseStage raw = .ok items) :
    (runJob isMorning now t dateStr fetches (.ok raw) (some (.error e)) st).1.cache = items
    ∧ ∃ run rest,
        (runJob isMorning now t dateStr fetches (.ok raw) (some (.error e)) st).1.history
          = run :: rest
        ∧ run.finished = true ∧ run.success = some false ∧ run.error = some e := by
  obtain ⟨rs, hbegin, hrs, _, _⟩ :=
    beginRun_frame now t (if isMorning then "Morning" else "Afternoon") st.history hl
  have hf : (⟨now, now, [], false, none, none⟩ : JobRun).finished = false := rfl
  have fr1 : Framed (beginRun now t (if isMorning then "Morning" else "Afternoon") st.history)
      ⟨now, now, [], false, none, none⟩ rs :=
    ⟨[mkEntry t ("Job Started: " ++ (if isMorning then "Morning" else "Afternoon"))], hbegin⟩
  have fr2 := framed_logJob now t "Starting feed fetch..." _ rs _ hf hrs fr1
  have fr3 := framed_foldl now t (fetchFeedsLogs fetches) _ rs hf hrs _ fr2
  have fr4 := framed_ite ((fetchFeedsContext fetches).length < 50) now t
    "WARNING: Feed data extremely short." _ rs _ hf hrs fr3
  have fr5 := framed_logJob now t "Calling Gemini API..." _ rs _ hf hrs fr4
  have fr6 := framed_logJob now t "Gemini response received." _ rs _ hf hrs fr5
  have fr7 := framed_logJob now t
    ("Memory cache updated (" ++ toString items.length ++ " items).") _ rs _ hf hrs fr6
  obtain ⟨run, hrun, h1, h2, h3⟩ := framed_failSeal now t e _ rs _ hf hrs fr7
  constructor
  · simp only [runJob, hparse]
  · refine ⟨run, rs, ?_, h1, h2, h3⟩
    simp only [runJob, hparse]
    exact hrun

/-- Witness for C5 at a concrete failing write. -/
theorem c5_upsert_witness :
    (runJob true 1 "t" "d" [] (.ok "[]") (some (.error "boom")) ⟨[], []⟩).1.cache = []
    ∧ ∃ run rest,
        (runJob true 1 "t" "d" [] (.ok "[]") (some (.error "boom")) ⟨[], []⟩).1.history
          = run :: rest
        ∧ run.finished = true ∧ run.success = some false ∧ run.error = some "boom" :=
  c5_upsert_amended true 1 "t" "d" [] "[]" [] "boom" ⟨[], []⟩ (by simp) rfl

/-- C8 (confirmed): the tracker history is bounded by five at every
operation boundary — `logJob` preserves the bound, `finishJob` never changes
the length, starting a run (the unshift of lines 197-198 together with its
first log) pushes a fresh unfinished run to the front and keeps the length at
`min (n+1) 5`, a start from a full history evicts exactly the oldest run, and
after `n > 5` runs the tracker holds exactly five (the most recent). -/
theorem c8_history_bound :
    (∀ (now : Nat) (t m : String) (hist : List JobRun), hist.length ≤ 5 →
        (logJob now t m hist).length ≤ 5)
    ∧ (∀ (b : Bool) (err : Option String) (hist : List JobRun),
        (finishJob b err hist).length = hist.length)
    ∧ (∀ (now : Nat) (t label : String) (hist : List JobRun), hist.length ≤ 5 →
        ∃ rs, beginRun now t label hist
            = (⟨now, now, [mkEntry t ("Job Started: " ++ label)], false, none, none⟩ : JobRun)
              :: rs
          ∧ (beginRun now t label hist).length = min (hist.length + 1) 5)
    ∧ (∀ (now : Nat) (t label : String) (hist : List JobRun), hist.length = 5 →
        beginRun now t label hist
          = (⟨now, now, [mkEntry t ("Job Started: " ++ label)], false, none, none⟩ : JobRun)
            :: hist.dropLast)
    ∧ (∀ (now : Nat) (t label : String) (n : Nat),
        ((fun hist => beginRun now t label hist)^[n] ([] : List JobRun)).length
          = min n 5) := by
  refine ⟨logJob_length_le, finishJob_length, ?_, ?_, beginRun_iterate_length⟩
  · intro now t label hist hl
    obtain ⟨rs, heq, _, _, _⟩ := beginRun_frame now t label hist hl
    exact ⟨rs, heq, beginRun_length now t label hist hl⟩
  · intro now t label hist h5
    obtain ⟨rs, heq, _, hd, _⟩ := beginRun_frame now t label hist (by omega)
    rw [heq, hd h5]

/-- Witness for C8 at a five-deep history and a seven-fold iteration. -/
theorem c8_history_bound_witness :
    (logJob 9 "t" "m" fullHistory).length ≤ 5
    ∧ beginRun 9 "t" "Morning" fullHistory
        = (⟨9, 9, [mkEntry "t" "Job Started: Morning"], false, none, none⟩ : JobRun)
          :: fullHistory.dropLast
    ∧ ((fun hist => beginRun 9 "t" "Morning" hist)^[7] ([] : List JobRun)).length
        = min 7 5 := by
  refine ⟨?_, ?_, ?_⟩
  · exact c8_history_bound.1 9 "t" "m" fullHistory (by simp [fullHistory])
  · exact c8_history_bound.2.2.2.1 9 "t" "Morning" fullHistory (by simp [fullHistory])
  · exact c8_history_bound.2.2.2.2 9 "t" "Morning" 7


/-- C7 (confirmed): the sanitizer strips one surrounding fenced code block
(language tag `json` or none) before JSON parsing — for any non-empty body
with no backtick and non-whitespace edges, both fenced wrappings clean to the
body itself; in particular the fenced empty array parses to the empty item
sequence, while unparsable output or a non-array is fatal to the job: the
run is sealed FAILED, the cache is untouched, and no durable write is
attempted. -/
theorem c7_fence_strip :
    (∀ (body : List Char) (hb : body ≠ []), '`' ∉ body →
        isWsChar (body.head hb) = false → isWsChar (body.getLast hb) = false →
        cleanJson (String.mk (fenceJson body)) = String.mk body
        ∧ cleanJson (String.mk (fenceBare body)) = String.mk body)
    ∧ parseStage "```json\n[]\n```" = .ok []
    ∧ parseStage "```\n[]\n```" = .ok []
    ∧ parseStage "the model failed" = .error "SyntaxError"
    ∧ parseStage "\x7b\"a\":1\x7d" = .error "Invalid JSON Array"
    ∧ (∀ (isMorning : Bool) (now : Nat) (t dateStr : String)
        (fetches : List (Source × Except String Feed)) (raw e : String)
        (pool : Option (Except String Unit)) (st : JobState),
        st.history.length ≤ 5 → parseStage raw = .error e →
        (runJob isMorning now t dateStr fetches (.ok raw) pool st).1.cache = st.cache
        ∧ (runJob isMorning now t dateStr fetches (.ok raw) pool st).2 = none
        ∧ ∃ run rest,
            (runJob isMorning now t dateStr fetches (.ok raw) pool st).1.history
              = run :: rest
            ∧ run.finished = true ∧ run.success = some false ∧ run.error = some e) := by
  refine ⟨?_, rfl, rfl, rfl, rfl, ?_⟩
  · intro body hb hnb hhead hlast
    exact ⟨cleanJson_fenceJson body hb hnb hhead hlast,
      cleanJson_fenceBare body hb hnb hhead hlast⟩
  · intro isMorning now t dateStr fetches raw e pool st hl hparse
    obtain ⟨rs, hbegin, hrs, _, _⟩ :=
      beginRun_frame now t (if isMorning then "Morning" else "Afternoon") st.history hl
    have hf : (⟨now, now, [], false, none, none⟩ : JobRun).finished = false := rfl
    have fr1 : Framed
        (beginRun now t (if isMorning then "Morning" else "Afternoon") st.history)
        ⟨now, now, [], false, none, none⟩ rs :=
      ⟨[mkEntry t ("Job Started: " ++ (if isMorning then "Morning" else "Afternoon"))],
        hbegin⟩
    have fr2 := framed_logJob now t "Starting feed fetch..." _ rs _ hf hrs fr1
    have fr3 := framed_foldl now t (fetchFeedsLogs fetches) _ rs hf hrs _ fr2
    have fr4 := framed_ite ((fetchFeedsContext fetches).length < 50) now t
      "WARNING: Feed data extremely short." _ rs _ hf hrs fr3
    have fr5 := framed_logJob now t "Calling Gemini API..." _ rs _ hf hrs fr4
    have fr6 := framed_logJob now t "Gemini response received." _ rs _ hf hrs fr5
    obtain ⟨run, hrun, h1, h2, h3⟩ := framed_failSeal now t e _ rs _ hf hrs fr6
    refine ⟨?_, ?_, ?_⟩
    · simp only [runJob, hparse]
    · simp only [runJob, hparse]
    · refine ⟨run, rs, ?_, h1, h2, h3⟩
      simp only [runJob, hparse]
      exact hrun

/-- Witness for C7: the fence lemma at `body = []` characters `[` `]`, and
the fatality clause at a concrete unparsable output. -/
theorem c7_fence_strip_witness :
    cleanJson (String.mk (fenceJson ['[', ']'])) = String.mk ['[', ']']
    ∧ (runJob false 0 "t" "d" [] (.ok "the model failed") none ⟨[], []⟩).1.cache = []
    ∧ ∃ run rest,
        (runJob false 0 "t" "d" [] (.ok "the model failed") none ⟨[], []⟩).1.history
          = run :: rest
        ∧ run.finished = true ∧ run.success = some false
        ∧ run.error = some "SyntaxError" := by
  obtain ⟨hc, put⟩ := c7_fence_strip.1 ['[', ']'] (by decide) (by decide)
    (by decide) (by decide)
  obtain ⟨hcache, hwrite, hist⟩ := c7_fence_strip.2.2.2.2.2 false 0 "t" "d" []
    "the model failed" "SyntaxError" none ⟨[], []⟩ (by simp) rfl
  exact ⟨hc, hcache, hist⟩

end AiNews
